import Mathlib

/-!
# Verification of `scripts/registry/fix-registry.py`

A shallow embedding of the registry fix script.  The script loads a JSON
registry (a mapping from category names to ordered lists of entries),
removes a hardcoded denylist of dead context entries, appends hardcoded
replacement entries whose file exists on disk, rewrites dependency strings
by substring replacement, and saves the result.

The embedding models:
* JSON entries as a structure `Entry` with the fields the script reads;
* the `components` mapping as an association list `Components`
  (Python dicts have unique keys; where a theorem needs this we carry the
  `keysNodup` hypothesis explicitly);
* the filesystem as the list of paths that exist (`fs : List String`);
* Python `str.replace` as `pyReplace` (leftmost, non-overlapping,
  all occurrences);
* a raised exception as `Option.none` (the script has no handlers:
  `update_dependencies` does `agent['dependencies']` unconditionally for
  the `opencoder` agent, a `KeyError` when the field is missing);
* the on-disk file as `World`, written only by `save_registry`,
  which `main` invokes last.
-/

/-- One registry entry, with the fields the script reads or writes.
`dependencies := none` models a JSON object without a `dependencies` key. -/
structure Entry where
  id : String
  name : String := ""
  type' : String := ""
  path : String := ""
  description : String := ""
  tags : List String := []
  dependencies : Option (List String) := none
  category : String := ""
deriving DecidableEq

/-- The `components` mapping of the registry: category name to entry list. -/
abbrev Components := List (String × List Entry)

/-- `registry['components'].get(k, [])` — also what the script's loops see
when they read `registry['components'][k]` for a key known to be present. -/
def getCat (cs : Components) (k : String) : List Entry :=
  (cs.lookup k).getD []

/-- `registry['components'][k] = v` for a key `k` already present:
replaces the stored list, touching no other key.  On an absent key this is
a no-op (the script only assigns to keys it has just checked or created). -/
def setCat (cs : Components) (k : String) (v : List Entry) : Components :=
  cs.map (fun p => if p.fst == k then (p.fst, v) else p)

/-- Python dicts have unique keys; association lists model them under this. -/
def keysNodup (cs : Components) : Bool :=
  decide (cs.map Prod.fst).Nodup

/-- The hardcoded denylist of `remove_dead_references`. -/
def dead_entries : List String := [
  "workflows-delegation",
  "design-iteration",
  "design-assets",
  "animation-patterns",
  "adding-agent",
  "adding-skill",
  "navigation-design",
  "claude-agent-skills",
  "claude-create-subagents",
  "claude-hooks",
  "claude-plugins",
  "external-libraries",
  "navigation"
]

/-- `remove_dead_references`: for the `contexts` category only (and only if
present), keep the entries whose `id` is not in the denylist. -/
def remove_dead_references (cs : Components) : Components :=
  setCat cs "contexts"
    ((getCat cs "contexts").filter (fun c => !(dead_entries.contains c.id)))

def new_entries : List Entry := [
  { id := "task-delegation-basics", name := "Task Delegation Basics", type' := "context",
    path := ".opencode/context/core/workflows/task-delegation-basics.md",
    description := "Task delegation fundamentals and basic usage patterns",
    tags := ["workflows", "delegation"], dependencies := some [], category := "standard" },
  { id := "task-delegation-specialists", name := "Task Delegation Specialists", type' := "context",
    path := ".opencode/context/core/workflows/task-delegation-specialists.md",
    description := "Specialist subagents for task delegation workflows",
    tags := ["workflows", "delegation", "subagents"], dependencies := some [], category := "standard" },
  { id := "task-delegation-caching", name := "Task Delegation Caching", type' := "context",
    path := ".opencode/context/core/workflows/task-delegation-caching.md",
    description := "Caching strategies for task delegation workflows",
    tags := ["workflows", "delegation", "caching"], dependencies := some [], category := "standard" },
  { id := "design-iteration-overview", name := "Design Iteration Overview", type' := "context",
    path := ".opencode/context/core/workflows/design-iteration-overview.md",
    description := "Overview of the design iteration workflow process",
    tags := ["workflows", "design", "iteration"], dependencies := some [], category := "standard" },
  { id := "design-iteration-plan-file", name := "Design Iteration Plan File", type' := "context",
    path := ".opencode/context/core/workflows/design-iteration-plan-file.md",
    description := "Structure and format for design iteration plan files",
    tags := ["workflows", "design", "planning"], dependencies := some [], category := "standard" },
  { id := "design-iteration-plan-iterations", name := "Design Iteration Plan Iterations", type' := "context",
    path := ".opencode/context/core/workflows/design-iteration-plan-iterations.md",
    description := "Planning iterations in the design workflow",
    tags := ["workflows", "design", "planning"], dependencies := some [], category := "standard" },
  { id := "design-iteration-stage-layout", name := "Design Iteration Stage - Layout", type' := "context",
    path := ".opencode/context/core/workflows/design-iteration-stage-layout.md",
    description := "Layout stage guidelines for design iteration",
    tags := ["workflows", "design", "layout"], dependencies := some [], category := "standard" },
  { id := "design-iteration-stage-theme", name := "Design Iteration Stage - Theme", type' := "context",
    path := ".opencode/context/core/workflows/design-iteration-stage-theme.md",
    description := "Theme stage guidelines for design iteration",
    tags := ["workflows", "design", "theme"], dependencies := some [], category := "standard" },
  { id := "design-iteration-stage-implementation", name := "Design Iteration Stage - Implementation", type' := "context",
    path := ".opencode/context/core/workflows/design-iteration-stage-implementation.md",
    description := "Implementation stage guidelines for design iteration",
    tags := ["workflows", "design", "implementation"], dependencies := some [], category := "standard" },
  { id := "design-iteration-stage-animation", name := "Design Iteration Stage - Animation", type' := "context",
    path := ".opencode/context/core/workflows/design-iteration-stage-animation.md",
    description := "Animation stage guidelines for design iteration",
    tags := ["workflows", "design", "animation"], dependencies := some [], category := "standard" },
  { id := "design-iteration-visual-content", name := "Design Iteration Visual Content", type' := "context",
    path := ".opencode/context/core/workflows/design-iteration-visual-content.md",
    description := "Visual content guidelines for design iteration",
    tags := ["workflows", "design", "visual"], dependencies := some [], category := "standard" },
  { id := "design-iteration-best-practices", name := "Design Iteration Best Practices", type' := "context",
    path := ".opencode/context/core/workflows/design-iteration-best-practices.md",
    description := "Best practices for design iteration workflows",
    tags := ["workflows", "design", "best-practices"], dependencies := some [], category := "standard" },
  { id := "external-libraries-workflow", name := "External Libraries Workflow", type' := "context",
    path := ".opencode/context/core/workflows/external-libraries-workflow.md",
    description := "Workflow for managing external library dependencies",
    tags := ["workflows", "external", "libraries"], dependencies := some [], category := "standard" },
  { id := "external-libraries-scenarios", name := "External Libraries Scenarios", type' := "context",
    path := ".opencode/context/core/workflows/external-libraries-scenarios.md",
    description := "Common scenarios for external library integration",
    tags := ["workflows", "external", "libraries", "scenarios"], dependencies := some [], category := "standard" },
  { id := "external-libraries-faq", name := "External Libraries FAQ", type' := "context",
    path := ".opencode/context/core/workflows/external-libraries-faq.md",
    description := "Frequently asked questions about external libraries",
    tags := ["workflows", "external", "libraries", "faq"], dependencies := some [], category := "standard" },
  { id := "adding-agent-basics", name := "Adding Agent - Basics", type' := "context",
    path := ".opencode/context/openagents-repo/guides/adding-agent-basics.md",
    description := "Basic guide for adding new agents",
    tags := ["guides", "agents", "basics"], dependencies := some [], category := "standard" },
  { id := "adding-agent-testing", name := "Adding Agent - Testing", type' := "context",
    path := ".opencode/context/openagents-repo/guides/adding-agent-testing.md",
    description := "Testing guide for new agents",
    tags := ["guides", "agents", "testing"], dependencies := some [], category := "standard" },
  { id := "adding-skill-basics", name := "Adding Skill - Basics", type' := "context",
    path := ".opencode/context/openagents-repo/guides/adding-skill-basics.md",
    description := "Basic guide for adding new skills",
    tags := ["guides", "skills", "basics"], dependencies := some [], category := "standard" },
  { id := "adding-skill-implementation", name := "Adding Skill - Implementation", type' := "context",
    path := ".opencode/context/openagents-repo/guides/adding-skill-implementation.md",
    description := "Implementation guide for new skills",
    tags := ["guides", "skills", "implementation"], dependencies := some [], category := "standard" },
  { id := "adding-skill-example", name := "Adding Skill - Example", type' := "context",
    path := ".opencode/context/openagents-repo/guides/adding-skill-example.md",
    description := "Example of adding a new skill",
    tags := ["guides", "skills", "examples"], dependencies := some [], category := "standard" },
  { id := "navigation-design-basics", name := "Navigation Design Basics", type' := "context",
    path := ".opencode/context/core/context-system/guides/navigation-design-basics.md",
    description := "Basics of designing navigation files",
    tags := ["context-system", "navigation", "design"], dependencies := some [], category := "standard" },
  { id := "navigation-templates", name := "Navigation Templates", type' := "context",
    path := ".opencode/context/core/context-system/guides/navigation-templates.md",
    description := "Templates for navigation files",
    tags := ["context-system", "navigation", "templates"], dependencies := some [], category := "standard" },
  { id := "animation-basics", name := "Animation Basics", type' := "context",
    path := ".opencode/context/ui/web/animation-basics.md",
    description := "Basic animation patterns and guidelines",
    tags := ["ui", "web", "animation"], dependencies := some [], category := "standard" },
  { id := "animation-advanced", name := "Animation Advanced", type' := "context",
    path := ".opencode/context/ui/web/animation-advanced.md",
    description := "Advanced animation patterns and techniques",
    tags := ["ui", "web", "animation"], dependencies := some [], category := "standard" },
  { id := "animation-components", name := "Animation Components", type' := "context",
    path := ".opencode/context/ui/web/animation-components.md",
    description := "Component-specific animation patterns",
    tags := ["ui", "web", "animation", "components"], dependencies := some [], category := "standard" },
  { id := "animation-forms", name := "Animation Forms", type' := "context",
    path := ".opencode/context/ui/web/animation-forms.md",
    description := "Animation patterns for forms",
    tags := ["ui", "web", "animation", "forms"], dependencies := some [], category := "standard" },
  { id := "animation-chat", name := "Animation Chat", type' := "context",
    path := ".opencode/context/ui/web/animation-chat.md",
    description := "Animation patterns for chat interfaces",
    tags := ["ui", "web", "animation", "chat"], dependencies := some [], category := "standard" },
  { id := "animation-loading", name := "Animation Loading", type' := "context",
    path := ".opencode/context/ui/web/animation-loading.md",
    description := "Loading animation patterns",
    tags := ["ui", "web", "animation", "loading"], dependencies := some [], category := "standard" }
]

/-- The guard of `add_split_file_entries` that checks whether the components
mapping lacks a `contexts` key: create the key with an empty list when
absent (Python dicts append new keys at the end). -/
def ensureContexts (cs : Components) : Components :=
  if (cs.lookup "contexts").isNone then cs ++ [("contexts", [])] else cs

/-- `add_split_file_entries`: keep the candidates whose `path` exists in the
filesystem `fs`, create the `contexts` key when absent, and append the
verified candidates whose `id` is not already present (the script computes
`existing_ids` once and then appends in a loop, which for a candidate list
with distinct ids is the same as this filter-then-append).  The second
component is the list of warned-about paths, one warning per skipped
candidate, in candidate order. -/
def add_split_file_entries (fs : List String) (cs : Components) :
    Components × List String :=
  let verified := new_entries.filter (fun e => fs.contains e.path)
  let warnings := (new_entries.filter (fun e => !(fs.contains e.path))).map
    (fun e => e.path)
  let cs1 := ensureContexts cs
  let existing_ids := (getCat cs1 "contexts").map (fun c => c.id)
  let toAdd := verified.filter (fun e => !(existing_ids.contains e.id))
  (setCat cs1 "contexts" (getCat cs1 "contexts" ++ toAdd), warnings)

/-- `s.replace(old, new)` on explicit character lists, with fuel:
at each position, if `old` matches as a prefix the match is replaced and
scanning resumes after it, otherwise one character is copied.  Fuel
`s.length` is enough because every step consumes at least one character
(the script never calls `replace` with an empty pattern). -/
def repFuel (old new : List Char) : Nat → List Char → List Char
  | _, [] => []
  | 0, s => s
  | fuel + 1, c :: rest =>
    if old.isPrefixOf (c :: rest) then
      new ++ repFuel old new fuel (rest.drop (old.length - 1))
    else
      c :: repFuel old new fuel rest

/-- Python `s.replace(old, new)`: leftmost, non-overlapping, all
occurrences replaced. -/
def pyReplace (s old new : String) : String :=
  ⟨repFuel old.data new.data s.data.length s.data⟩

/-- The `opencoder` rewrite rule of `update_dependencies`. -/
def agentRewrite (d : String) : String :=
  pyReplace d "context:workflows-delegation" "context:task-delegation-basics"

/-- `update_dependencies`, agents loop body: only the agent whose id is
`opencoder` is touched; reading its `dependencies` raises (`none`) when the
field is missing. -/
def updateAgent (a : Entry) : Option Entry :=
  if a.id == "opencoder" then
    match a.dependencies with
    | none => none
    | some ds => some { a with dependencies := some (ds.map agentRewrite) }
  else
    some a

/-- The agents loop of `update_dependencies`: first raised exception wins. -/
def updateAgentsList : List Entry → Option (List Entry)
  | [] => some []
  | a :: rest =>
    match updateAgent a with
    | none => none
    | some b =>
      match updateAgentsList rest with
      | none => none
      | some bs => some (b :: bs)

/-- First contexts rewrite rule of `update_dependencies`. -/
def ctxRule1 (d : String) : String :=
  pyReplace d "context:external-libraries" "context:external-libraries-workflow"

/-- Second contexts rewrite rule of `update_dependencies`. -/
def ctxRule2 (d : String) : String :=
  pyReplace d "context:adding-agent" "context:adding-agent-basics"

/-- Third contexts rewrite rule of `update_dependencies`. -/
def ctxRule3 (d : String) : String :=
  pyReplace d "context:adding-skill" "context:adding-skill-basics"

/-- `update_dependencies`, contexts loop body: for an entry that has a
`dependencies` field, apply the three rewrite rules in sequence to every
dependency string; entries without the field are untouched. -/
def ctxUpdate (e : Entry) : Entry :=
  match e.dependencies with
  | none => e
  | some ds =>
    let ds1 := ds.map ctxRule1
    let ds2 := ds1.map ctxRule2
    let ds3 := ds2.map ctxRule3
    { e with dependencies := some ds3 }

/-- `update_dependencies`: rewrite the `opencoder` agent's dependencies,
then every `contexts` entry's dependencies. -/
def update_dependencies (cs : Components) : Option Components :=
  match updateAgentsList (getCat cs "agents") with
  | none => none
  | some ags =>
    let cs1 := setCat cs "agents" ags
    some (setCat cs1 "contexts" ((getCat cs1 "contexts").map ctxUpdate))

/-- The three fix steps of `main`, in order, on an in-memory registry. -/
def fixRun (fs : List String) (cs : Components) : Option Components :=
  update_dependencies (add_split_file_entries fs (remove_dead_references cs)).fst

/-- The on-disk registry file; `none` models a missing or corrupt file
(`json.load` raises on it). -/
structure World where
  file : Option Components
deriving DecidableEq

/-- `save_registry`: overwrite the registry file. -/
def save_registry (cs : Components) (_w : World) : World := ⟨some cs⟩

/-- `main`: load, run the three fix steps, save; there is no exception
handler, so a raised exception ends the run (`false`) with the file
untouched — `save_registry` is only reached when every earlier step
succeeded. -/
def mainRun (fs : List String) (w : World) : World × Bool :=
  match w.file with
  | none => (w, false)
  | some r =>
    match fixRun fs r with
    | none => (w, false)
    | some r' => (save_registry r' w, true)

/-- `pat in s` on strings: does `pat` occur as a contiguous substring? -/
def hasSub (s pat : String) : Bool := decide (pat.data <:+: s.data)

/-- The contexts entries kept by `remove_dead_references`. -/
def keptContexts (cs : Components) : List Entry :=
  (getCat cs "contexts").filter (fun c => !(dead_entries.contains c.id))

/-- The entries `add_split_file_entries` appends, given the filesystem and
the contexts list it appends to: the candidates whose file exists and whose
id is not already present. -/
def addedEntries (fs : List String) (l : List Entry) : List Entry :=
  (new_entries.filter (fun e => fs.contains e.path)).filter
    (fun e => !((l.map (fun c => c.id)).contains e.id))

/-- No dependency string of the registry still contains an old substring
targeted by a rewrite rule (and the `opencoder` agents, the ones the agents
loop reads `dependencies` from, do have the field).  On such a registry the
dependency rewrite pass can change nothing. -/
def noOldPatterns (cs : Components) : Bool :=
  ((getCat cs "agents").all (fun a =>
    if a.id == "opencoder" then
      match a.dependencies with
      | some ds => ds.all (fun d => !(hasSub d "context:workflows-delegation"))
      | none => false
    else true))
  &&
  ((getCat cs "contexts").all (fun e =>
    match e.dependencies with
    | none => true
    | some ds => ds.all (fun d =>
        !(hasSub d "context:external-libraries") &&
        !(hasSub d "context:adding-agent") &&
        !(hasSub d "context:adding-skill"))))

/-! ## Concrete registries used as counterexamples and witnesses -/

/-- A contexts entry depending on the old `external-libraries` reference. -/
def eLibUser : Entry := { id := "lib-user", dependencies := some ["context:external-libraries"] }

def csLib : Components := [("contexts", [eLibUser])]

/-- `csLib` after one run: the dependency has been rewritten once. -/
def csLib1 : Components :=
  [("contexts", [{ id := "lib-user", dependencies := some ["context:external-libraries-workflow"] }])]

/-- `csLib1` after another run: the rule fires again on its own output. -/
def eLibUser2 : Entry :=
  { id := "lib-user", dependencies := some ["context:external-libraries-workflow-workflow"] }

def csLib2 : Components := [("contexts", [eLibUser2])]

/-- A contexts entry carrying a denylisted id. -/
def eDeadDemo : Entry := { id := "workflows-delegation" }

/-- A contexts entry no rewrite rule or denylist entry touches. -/
def ePlain : Entry := { id := "plain-notes", dependencies := some ["context:plain-notes"] }

def csW : Components := [("contexts", [eDeadDemo, ePlain])]

def csW1 : Components := [("contexts", [ePlain])]

/-- A contexts entry carrying the denylisted id `navigation`. -/
def eNav : Entry := { id := "navigation" }

/-- An agent that is not `opencoder` but has the old dependency string. -/
def agHelper : Entry :=
  { id := "helper-agent", dependencies := some ["context:workflows-delegation"] }

def csNav : Components := [("contexts", [eNav, ePlain]), ("agents", [agHelper])]

def csAg : Components := [("agents", [agHelper])]

def csAg' : Components := [("agents", [agHelper]), ("contexts", [])]

/-- The `opencoder` agent with the old dependency string. -/
def agOC : Entry :=
  { id := "opencoder", dependencies := some ["context:workflows-delegation"] }

def csOC : Components := [("agents", [agOC])]

def csOC' : Components :=
  [("agents", [{ id := "opencoder", dependencies := some ["context:task-delegation-basics"] }]),
   ("contexts", [])]

/-- A contexts entry whose dependency merely extends a rule target. -/
def eExtra : Entry :=
  { id := "extra-user", dependencies := some ["context:adding-agent-extra"] }

def csU : Components := [("contexts", [eExtra])]

def eExtra' : Entry :=
  { id := "extra-user", dependencies := some ["context:adding-agent-basics-extra"] }

def csU' : Components := [("contexts", [eExtra'])]

/-- A missing or corrupt registry file. -/
def wNone : World := ⟨none⟩

/-- A registry whose `opencoder` agent has no `dependencies` key: the update
step raises before `save_registry` runs. -/
def wBadAgent : World := ⟨some [("agents", [{ id := "opencoder" }])]⟩

/-! ## Association list lemmas (`getCat` / `setCat` / keys) -/

theorem getCat_cons (a : String) (b : List Entry) (rest : Components)
    (k : String) : getCat ((a, b) :: rest) k = if k = a then b else getCat rest k := by
  by_cases h : k = a
  · simp [getCat, List.lookup, h]
  · have hne : (k == a) = false := beq_eq_false_iff_ne.mpr h
    simp [getCat, List.lookup, hne, h]

theorem setCat_cons (a : String) (b : List Entry) (rest : Components)
    (k : String) (v : List Entry) :
    setCat ((a, b) :: rest) k v = (if a = k then (a, v) else (a, b)) :: setCat rest k v := by
  by_cases h : a = k <;> simp [setCat, h]

theorem keys_setCat (cs : Components) (k : String) (v : List Entry) :
    (setCat cs k v).map Prod.fst = cs.map Prod.fst := by
  induction cs with
  | nil => rfl
  | cons p rest ih =>
    obtain ⟨a, b⟩ := p
    rw [setCat_cons]
    by_cases h : a = k <;> simp [h, ih]

theorem setCat_of_not_mem {cs : Components} {k : String} (v : List Entry)
    (h : ¬ k ∈ cs.map Prod.fst) : setCat cs k v = cs := by
  induction cs with
  | nil => rfl
  | cons p rest ih =>
    obtain ⟨a, b⟩ := p
    simp only [List.map_cons, List.mem_cons] at h
    push_neg at h
    rw [setCat_cons, if_neg (fun e => h.1 e.symm), ih h.2]

theorem getCat_setCat_ne (cs : Components) {k k' : String} (v : List Entry)
    (h : k' ≠ k) : getCat (setCat cs k v) k' = getCat cs k' := by
  induction cs with
  | nil => rfl
  | cons p rest ih =>
    obtain ⟨a, b⟩ := p
    rw [setCat_cons]
    by_cases ha : a = k
    · rw [if_pos ha, getCat_cons, getCat_cons,
        if_neg (fun e => h (e.trans ha)), if_neg (fun e => h (e.trans ha)), ih]
    · rw [if_neg ha, getCat_cons, getCat_cons]
      by_cases hk' : k' = a
      · rw [if_pos hk', if_pos hk']
      · rw [if_neg hk', if_neg hk', ih]

theorem getCat_setCat_self {cs : Components} {k : String} (v : List Entry)
    (h : k ∈ cs.map Prod.fst) : getCat (setCat cs k v) k = v := by
  induction cs with
  | nil => cases h
  | cons p rest ih =>
    obtain ⟨a, b⟩ := p
    rw [setCat_cons]
    by_cases ha : a = k
    · rw [if_pos ha, getCat_cons, if_pos ha.symm]
    · rw [if_neg ha, getCat_cons, if_neg (fun e => ha e.symm)]
      apply ih
      simp only [List.map_cons, List.mem_cons] at h
      rcases h with h | h
      · exact absurd h.symm ha
      · exact h

theorem setCat_getCat_self {cs : Components} (k : String)
    (h : (cs.map Prod.fst).Nodup) : setCat cs k (getCat cs k) = cs := by
  induction cs with
  | nil => rfl
  | cons p rest ih =>
    obtain ⟨a, b⟩ := p
    simp only [List.map_cons, List.nodup_cons] at h
    rw [getCat_cons, setCat_cons]
    by_cases ha : a = k
    · rw [if_pos ha, if_pos ha.symm]
      have hmem : ¬ k ∈ rest.map Prod.fst := ha ▸ h.1
      rw [setCat_of_not_mem b hmem]
    · rw [if_neg ha, if_neg (fun e => ha e.symm), ih h.2]

theorem lookup_isSome_iff {cs : Components} {k : String} :
    (cs.lookup k).isSome = true ↔ k ∈ cs.map Prod.fst := by
  induction cs with
  | nil => simp [List.lookup]
  | cons p rest ih =>
    obtain ⟨a, b⟩ := p
    by_cases h : k = a
    · simp [List.lookup, h]
    · have hne : (k == a) = false := beq_eq_false_iff_ne.mpr h
      simp [List.lookup, hne, ih, h]

theorem getCat_of_not_mem {cs : Components} {k : String}
    (h : ¬ k ∈ cs.map Prod.fst) : getCat cs k = [] := by
  unfold getCat
  cases hl : cs.lookup k
  · rfl
  · exact absurd (lookup_isSome_iff.mp (by rw [hl]; rfl)) h

theorem lookup_append (cs ds : Components) (k : String) :
    (cs ++ ds).lookup k =
      match cs.lookup k with
      | some v => some v
      | none => ds.lookup k := by
  induction cs with
  | nil => simp [List.lookup]
  | cons p rest ih =>
    obtain ⟨a, b⟩ := p
    by_cases h : k == a <;> simp [List.lookup, h, ih]

theorem getCat_append_ne {cs : Components} {k k₀ : String} (v₀ : List Entry)
    (h : k ≠ k₀) : getCat (cs ++ [(k₀, v₀)]) k = getCat cs k := by
  unfold getCat
  rw [lookup_append]
  cases hl : cs.lookup k
  · have hne : (k == k₀) = false := beq_eq_false_iff_ne.mpr h
    simp [List.lookup, hne]
  · rfl

theorem getCat_append_single_self (cs : Components) (k₀ : String)
    (v₀ : List Entry) (h : ¬ k₀ ∈ cs.map Prod.fst) :
    getCat (cs ++ [(k₀, v₀)]) k₀ = v₀ := by
  unfold getCat
  rw [lookup_append]
  cases hl : cs.lookup k₀
  · simp [List.lookup]
  · exact absurd (lookup_isSome_iff.mp (by rw [hl]; rfl)) h
/-! ## `repFuel` / `pyReplace` lemmas -/

theorem repFuel_nil (old new : List Char) (f : Nat) : repFuel old new f [] = [] := by
  cases f <;> rfl

theorem repFuel_succ_cons (old new : List Char) (f : Nat) (c : Char)
    (rest : List Char) :
    repFuel old new (f + 1) (c :: rest) =
      if old.isPrefixOf (c :: rest) then
        new ++ repFuel old new f (rest.drop (old.length - 1))
      else c :: repFuel old new f rest := rfl

theorem repFuel_fuel_irrel (old new : List Char) :
    ∀ (f₁ f₂ : Nat) (s : List Char), s.length ≤ f₁ → s.length ≤ f₂ →
      repFuel old new f₁ s = repFuel old new f₂ s := by
  intro f₁
  induction f₁ with
  | zero =>
    intro f₂ s h1 _
    have hs : s = [] := List.length_eq_zero.mp (Nat.le_zero.mp h1)
    subst hs
    simp [repFuel_nil]
  | succ g ih =>
    intro f₂ s h1 h2
    cases s with
    | nil => simp [repFuel_nil]
    | cons c rest =>
      cases f₂ with
      | zero => simp at h2
      | succ g₂ =>
        rw [repFuel_succ_cons, repFuel_succ_cons]
        simp only [List.length_cons, Nat.add_le_add_iff_right] at h1 h2
        by_cases hp : old.isPrefixOf (c :: rest)
        · rw [if_pos hp, if_pos hp]
          congr 1
          exact ih g₂ _ (by rw [List.length_drop]; omega)
            (by rw [List.length_drop]; omega)
        · rw [if_neg hp, if_neg hp]
          congr 1
          exact ih g₂ rest h1 h2

theorem repFuel_eq_self_of_no_occurrence (old new : List Char) :
    ∀ (f : Nat) (s : List Char), s.length ≤ f → ¬ old <:+: s →
      repFuel old new f s = s := by
  intro f
  induction f with
  | zero =>
    intro s h1 _
    have hs : s = [] := List.length_eq_zero.mp (Nat.le_zero.mp h1)
    subst hs
    exact repFuel_nil old new 0
  | succ g ih =>
    intro s h1 hni
    cases s with
    | nil => exact repFuel_nil old new (g + 1)
    | cons c rest =>
      rw [repFuel_succ_cons]
      have hp : ¬ old.isPrefixOf (c :: rest) = true := by
        intro hb
        exact hni (List.isPrefixOf_iff_prefix.mp hb).isInfix
      rw [if_neg hp]
      congr 1
      simp only [List.length_cons, Nat.add_le_add_iff_right] at h1
      exact ih rest h1 (fun hinf => hni (List.infix_cons hinf))

theorem pyReplace_eq_self_of_no_occurrence {s old new : String}
    (h : ¬ old.data <:+: s.data) : pyReplace s old new = s := by
  cases s with
  | mk l =>
    unfold pyReplace
    exact congrArg String.mk
      (repFuel_eq_self_of_no_occurrence old.data new.data l.length l le_rfl h)

theorem repFuel_replaces_prefix (old new t : List Char) (h : old ≠ []) :
    repFuel old new (old ++ t).length (old ++ t) =
      new ++ repFuel old new t.length t := by
  obtain ⟨c, o', rfl⟩ : ∃ c o', old = c :: o' := by
    cases old with
    | nil => exact absurd rfl h
    | cons c o' => exact ⟨c, o', rfl⟩
  have hcons : (c :: o') ++ t = c :: (o' ++ t) := rfl
  have hlen : (c :: (o' ++ t)).length = (o' ++ t).length + 1 := by simp
  rw [hcons, hlen, repFuel_succ_cons]
  have hpre : (c :: o').isPrefixOf (c :: (o' ++ t)) = true := by
    rw [List.isPrefixOf_iff_prefix]
    exact ⟨t, by simp⟩
  rw [if_pos hpre]
  have hdrop : (c :: o').length - 1 = o'.length := by simp
  rw [hdrop, List.drop_left]
  congr 1
  exact repFuel_fuel_irrel (c :: o') new _ _ t
    (by simp [List.length_append]) le_rfl

theorem pyReplace_replaces_prefix (old new t : String) (h : old.data ≠ []) :
    pyReplace (old ++ t) old new = new ++ pyReplace t old new := by
  unfold pyReplace
  cases new with
  | mk ln =>
    apply String.ext
    simp only [String.data_append]
    exact repFuel_replaces_prefix old.data ln t.data h

/-! ## Entry and rewrite-pass lemmas -/

theorem entry_eta (e : Entry) : { e with dependencies := e.dependencies } = e := by
  cases e
  rfl

theorem hasSub_false_iff {d pat : String} :
    hasSub d pat = false ↔ ¬ pat.data <:+: d.data := by
  simp [hasSub]

theorem agentRewrite_eq_self {d : String}
    (h : hasSub d "context:workflows-delegation" = false) :
    agentRewrite d = d :=
  pyReplace_eq_self_of_no_occurrence (hasSub_false_iff.mp h)

theorem updateAgent_shape {a b : Entry} (h : updateAgent a = some b) :
    b = { a with dependencies := b.dependencies } := by
  unfold updateAgent at h
  by_cases hid : a.id == "opencoder"
  · rw [if_pos hid] at h
    cases hd : a.dependencies with
    | none => rw [hd] at h; cases h
    | some ds =>
      rw [hd] at h
      have hb := Option.some.inj h
      rw [← hb]
  · rw [if_neg hid] at h
    have hb := Option.some.inj h
    rw [← hb, entry_eta]

theorem updateAgent_id {a b : Entry} (h : updateAgent a = some b) : b.id = a.id := by
  have := updateAgent_shape h
  rw [this]

theorem updateAgent_eq_self {a : Entry}
    (h : a.id = "opencoder" →
      ∃ ds, a.dependencies = some ds ∧
        ∀ d ∈ ds, hasSub d "context:workflows-delegation" = false) :
    updateAgent a = some a := by
  unfold updateAgent
  by_cases hid : a.id == "opencoder"
  · obtain ⟨ds, hds, hclean⟩ := h (beq_iff_eq.mp hid)
    rw [if_pos hid, hds]
    show some { a with dependencies := some (ds.map agentRewrite) } = some a
    have hmap : ds.map agentRewrite = ds := by
      calc ds.map agentRewrite = ds.map id :=
            List.map_congr_left (fun d hd => agentRewrite_eq_self (hclean d hd))
        _ = ds := List.map_id ds
    rw [hmap, ← hds, entry_eta]
  · rw [if_neg hid]

theorem updateAgentsList_mem {l l' : List Entry}
    (h : updateAgentsList l = some l') {a : Entry} (ha : a ∈ l) :
    ∃ b, updateAgent a = some b ∧ b ∈ l' := by
  induction l generalizing l' with
  | nil => cases ha
  | cons x rest ih =>
    cases hx : updateAgent x with
    | none => rw [updateAgentsList, hx] at h; cases h
    | some b =>
      cases hr : updateAgentsList rest with
      | none => rw [updateAgentsList, hx, hr] at h; cases h
      | some bs =>
        rw [updateAgentsList, hx, hr] at h
        have hl' : l' = b :: bs := (Option.some.inj h).symm
        subst hl'
        rcases List.mem_cons.mp ha with rfl | hmem
        · exact ⟨b, hx, List.mem_cons_self b bs⟩
        · obtain ⟨b', hb1, hb2⟩ := ih hr hmem
          exact ⟨b', hb1, List.mem_cons_of_mem b hb2⟩

theorem updateAgentsList_mem_rev {l l' : List Entry}
    (h : updateAgentsList l = some l') {b : Entry} (hb : b ∈ l') :
    ∃ a, a ∈ l ∧ updateAgent a = some b := by
  induction l generalizing l' with
  | nil =>
    rw [updateAgentsList] at h
    rw [← Option.some.inj h] at hb
    cases hb
  | cons x rest ih =>
    cases hx : updateAgent x with
    | none => rw [updateAgentsList, hx] at h; cases h
    | some b₀ =>
      cases hr : updateAgentsList rest with
      | none => rw [updateAgentsList, hx, hr] at h; cases h
      | some bs =>
        rw [updateAgentsList, hx, hr] at h
        have hl' : l' = b₀ :: bs := (Option.some.inj h).symm
        subst hl'
        rcases List.mem_cons.mp hb with rfl | hmem
        · exact ⟨x, List.mem_cons_self x rest, hx⟩
        · obtain ⟨a, ha1, ha2⟩ := ih hr hmem
          exact ⟨a, List.mem_cons_of_mem x ha1, ha2⟩

theorem updateAgentsList_of_forall_self {l : List Entry}
    (h : ∀ a ∈ l, updateAgent a = some a) : updateAgentsList l = some l := by
  induction l with
  | nil => rfl
  | cons x rest ih =>
    rw [updateAgentsList, h x (List.mem_cons_self x rest),
      ih (fun a ha => h a (List.mem_cons_of_mem x ha))]

theorem ctxUpdate_of_none {e : Entry} (h : e.dependencies = none) :
    ctxUpdate e = e := by
  unfold ctxUpdate
  rw [h]

theorem ctxUpdate_of_some {e : Entry} {ds : List String}
    (h : e.dependencies = some ds) :
    ctxUpdate e =
      { e with dependencies := some (((ds.map ctxRule1).map ctxRule2).map ctxRule3) } := by
  unfold ctxUpdate
  rw [h]

theorem ctxUpdate_id (e : Entry) : (ctxUpdate e).id = e.id := by
  cases h : e.dependencies with
  | none => rw [ctxUpdate_of_none h]
  | some ds => rw [ctxUpdate_of_some h]

theorem ctxUpdate_shape (e : Entry) :
    ctxUpdate e = { e with dependencies := (ctxUpdate e).dependencies } := by
  cases h : e.dependencies with
  | none => rw [ctxUpdate_of_none h, entry_eta]
  | some ds => rw [ctxUpdate_of_some h]

theorem ctxUpdate_eq_self {e : Entry}
    (h : ∀ ds, e.dependencies = some ds → ∀ d ∈ ds,
      hasSub d "context:external-libraries" = false ∧
      hasSub d "context:adding-agent" = false ∧
      hasSub d "context:adding-skill" = false) :
    ctxUpdate e = e := by
  cases hd : e.dependencies with
  | none => exact ctxUpdate_of_none hd
  | some ds =>
    rw [ctxUpdate_of_some hd]
    have h1 : ds.map ctxRule1 = ds := by
      calc _ = ds.map id := List.map_congr_left (fun d hmem =>
              pyReplace_eq_self_of_no_occurrence
                (hasSub_false_iff.mp (h ds hd d hmem).1))
        _ = ds := List.map_id ds
    rw [h1]
    have h2 : ds.map ctxRule2 = ds := by
      calc _ = ds.map id := List.map_congr_left (fun d hmem =>
              pyReplace_eq_self_of_no_occurrence
                (hasSub_false_iff.mp (h ds hd d hmem).2.1))
        _ = ds := List.map_id ds
    rw [h2]
    have h3 : ds.map ctxRule3 = ds := by
      calc _ = ds.map id := List.map_congr_left (fun d hmem =>
              pyReplace_eq_self_of_no_occurrence
                (hasSub_false_iff.mp (h ds hd d hmem).2.2))
        _ = ds := List.map_id ds
    rw [h3, ← hd, entry_eta]

/-! ## Pipeline characterization lemmas -/

theorem remove_contexts (cs : Components) :
    getCat (remove_dead_references cs) "contexts" = keptContexts cs := by
  unfold remove_dead_references keptContexts
  by_cases h : "contexts" ∈ cs.map Prod.fst
  · exact getCat_setCat_self _ h
  · rw [setCat_of_not_mem _ h, getCat_of_not_mem h]
    rfl

theorem remove_frame (cs : Components) {k : String} (h : k ≠ "contexts") :
    getCat (remove_dead_references cs) k = getCat cs k :=
  getCat_setCat_ne cs _ h

theorem remove_keys (cs : Components) :
    (remove_dead_references cs).map Prod.fst = cs.map Prod.fst :=
  keys_setCat cs "contexts" _

theorem getCat_ensure (cs : Components) :
    getCat (ensureContexts cs) "contexts" = getCat cs "contexts" := by
  unfold ensureContexts
  by_cases h : (cs.lookup "contexts").isNone
  · rw [if_pos h]
    have hmem : ¬ "contexts" ∈ cs.map Prod.fst := by
      intro hm
      have h2 := lookup_isSome_iff.mpr hm
      rw [Option.isNone_iff_eq_none] at h
      rw [h] at h2
      cases h2
    rw [getCat_append_single_self cs _ _ hmem, getCat_of_not_mem hmem]
  · rw [if_neg h]

theorem getCat_ensure_ne (cs : Components) {k : String} (h : k ≠ "contexts") :
    getCat (ensureContexts cs) k = getCat cs k := by
  unfold ensureContexts
  by_cases hn : (cs.lookup "contexts").isNone
  · rw [if_pos hn, getCat_append_ne _ h]
  · rw [if_neg hn]

theorem mem_keys_ensure (cs : Components) :
    "contexts" ∈ (ensureContexts cs).map Prod.fst := by
  unfold ensureContexts
  by_cases h : (cs.lookup "contexts").isNone
  · rw [if_pos h]
    simp
  · rw [if_neg h]
    apply lookup_isSome_iff.mp
    cases hl : cs.lookup "contexts"
    · rw [hl] at h
      simp at h
    · rfl

theorem keys_ensure_nodup {cs : Components} (h : (cs.map Prod.fst).Nodup) :
    ((ensureContexts cs).map Prod.fst).Nodup := by
  unfold ensureContexts
  by_cases hn : (cs.lookup "contexts").isNone
  · rw [if_pos hn]
    have hmem : ¬ "contexts" ∈ cs.map Prod.fst := by
      intro hm
      have h2 := lookup_isSome_iff.mpr hm
      rw [Option.isNone_iff_eq_none] at hn
      rw [hn] at h2
      cases h2
    simp [List.nodup_append, h, hmem]
  · rw [if_neg hn]
    exact h

theorem addSplit_eq (fs : List String) (cs : Components) :
    add_split_file_entries fs cs =
      (setCat (ensureContexts cs) "contexts"
        (getCat (ensureContexts cs) "contexts" ++
          addedEntries fs (getCat (ensureContexts cs) "contexts")),
       (new_entries.filter (fun e => !(fs.contains e.path))).map (fun e => e.path)) :=
  rfl

theorem addSplit_contexts (fs : List String) (cs : Components) :
    getCat (add_split_file_entries fs cs).fst "contexts" =
      getCat cs "contexts" ++ addedEntries fs (getCat cs "contexts") := by
  rw [addSplit_eq]
  show getCat (setCat (ensureContexts cs) "contexts" _) "contexts" = _
  rw [getCat_setCat_self _ (mem_keys_ensure cs), getCat_ensure]

theorem addSplit_frame (fs : List String) (cs : Components) {k : String}
    (h : k ≠ "contexts") :
    getCat (add_split_file_entries fs cs).fst k = getCat cs k := by
  rw [addSplit_eq]
  show getCat (setCat (ensureContexts cs) "contexts" _) k = _
  rw [getCat_setCat_ne _ _ h, getCat_ensure_ne _ h]

theorem addSplit_keys (fs : List String) (cs : Components) :
    (add_split_file_entries fs cs).fst.map Prod.fst =
      (ensureContexts cs).map Prod.fst := by
  rw [addSplit_eq]
  exact keys_setCat _ _ _

theorem addSplit_warnings (fs : List String) (cs : Components) :
    (add_split_file_entries fs cs).snd =
      (new_entries.filter (fun e => !(fs.contains e.path))).map (fun e => e.path) :=
  rfl

theorem update_dep_spec {cs cs' : Components}
    (h : update_dependencies cs = some cs') :
    updateAgentsList (getCat cs "agents") = some (getCat cs' "agents") ∧
    getCat cs' "contexts" = (getCat cs "contexts").map ctxUpdate ∧
    (∀ k, k ≠ "contexts" → k ≠ "agents" → getCat cs' k = getCat cs k) ∧
    cs'.map Prod.fst = cs.map Prod.fst := by
  unfold update_dependencies at h
  cases hag : updateAgentsList (getCat cs "agents") with
  | none => rw [hag] at h; cases h
  | some ags =>
    rw [hag] at h
    have hcs' : cs' = setCat (setCat cs "agents" ags) "contexts"
        ((getCat (setCat cs "agents" ags) "contexts").map ctxUpdate) :=
      (Option.some.inj h).symm
    subst hcs'
    have hne_ca : ("agents" : String) ≠ "contexts" := by decide
    have hne_ac : ("contexts" : String) ≠ "agents" := by decide
    refine ⟨?_, ?_, ?_, ?_⟩
    · rw [getCat_setCat_ne _ _ hne_ca]
      by_cases hm : "agents" ∈ cs.map Prod.fst
      · rw [getCat_setCat_self _ hm]
      · rw [setCat_of_not_mem _ hm, getCat_of_not_mem hm]
        rw [getCat_of_not_mem hm] at hag
        exact hag.symm
    · by_cases hm : "contexts" ∈ (setCat cs "agents" ags).map Prod.fst
      · rw [getCat_setCat_self _ hm, getCat_setCat_ne _ _ hne_ac]
      · rw [setCat_of_not_mem _ hm]
        rw [keys_setCat] at hm
        rw [getCat_setCat_ne _ _ hne_ac, getCat_of_not_mem hm]
        rfl
    · intro k hk1 hk2
      rw [getCat_setCat_ne _ _ hk1, getCat_setCat_ne _ _ hk2]
    · rw [keys_setCat, keys_setCat]

theorem update_dep_isSome_of_agents {cs : Components} {ags : List Entry}
    (h : updateAgentsList (getCat cs "agents") = some ags) :
    ∃ cs', update_dependencies cs = some cs' := by
  unfold update_dependencies
  rw [h]
  exact ⟨_, rfl⟩

theorem keysNodup_iff {cs : Components} :
    keysNodup cs = true ↔ (cs.map Prod.fst).Nodup := by
  simp [keysNodup]

theorem fixRun_spec {fs : List String} {cs cs' : Components}
    (h : fixRun fs cs = some cs') :
    updateAgentsList (getCat cs "agents") = some (getCat cs' "agents") ∧
    getCat cs' "contexts" =
      (keptContexts cs ++ addedEntries fs (keptContexts cs)).map ctxUpdate ∧
    (∀ k, k ≠ "contexts" → k ≠ "agents" → getCat cs' k = getCat cs k) ∧
    "contexts" ∈ cs'.map Prod.fst ∧
    (keysNodup cs = true → keysNodup cs' = true) := by
  unfold fixRun at h
  obtain ⟨hag, hctx, hframe, hkeys⟩ := update_dep_spec h
  have hA_ag : getCat (add_split_file_entries fs (remove_dead_references cs)).fst
      "agents" = getCat cs "agents" := by
    rw [addSplit_frame _ _ (by decide), remove_frame _ (by decide)]
  have hA_ctx : getCat (add_split_file_entries fs (remove_dead_references cs)).fst
      "contexts" = keptContexts cs ++ addedEntries fs (keptContexts cs) := by
    rw [addSplit_contexts, remove_contexts]
  have hA_keys : (add_split_file_entries fs (remove_dead_references cs)).fst.map
      Prod.fst = (ensureContexts (remove_dead_references cs)).map Prod.fst :=
    addSplit_keys _ _
  refine ⟨?_, ?_, ?_, ?_, ?_⟩
  · rw [hA_ag] at hag
    exact hag
  · rw [hctx, hA_ctx]
  · intro k hk1 hk2
    rw [hframe k hk1 hk2, addSplit_frame _ _ hk1, remove_frame _ hk1]
  · rw [hkeys, hA_keys]
    exact mem_keys_ensure _
  · intro hnd
    rw [keysNodup_iff] at hnd ⊢
    rw [hkeys, hA_keys]
    apply keys_ensure_nodup
    rw [remove_keys]
    exact hnd

/-! ## No-op characterizations of each pass (used for idempotence) -/

theorem remove_eq_self_of {cs : Components} (hnodup : (cs.map Prod.fst).Nodup)
    (h : ∀ e ∈ getCat cs "contexts", dead_entries.contains e.id = false) :
    remove_dead_references cs = cs := by
  unfold remove_dead_references
  have hf : (getCat cs "contexts").filter (fun c => !(dead_entries.contains c.id)) =
      getCat cs "contexts" :=
    List.filter_eq_self.mpr (fun a ha => by rw [h a ha]; rfl)
  rw [hf, setCat_getCat_self _ hnodup]

theorem addSplit_eq_self_of {fs : List String} {cs : Components}
    (hnodup : (cs.map Prod.fst).Nodup)
    (hmem : "contexts" ∈ cs.map Prod.fst)
    (h : ∀ e ∈ new_entries, fs.contains e.path = true →
      e.id ∈ (getCat cs "contexts").map (fun c => c.id)) :
    (add_split_file_entries fs cs).fst = cs := by
  rw [addSplit_eq]
  have hens : ensureContexts cs = cs := by
    unfold ensureContexts
    rw [if_neg (by rw [Option.isNone_iff_eq_none]
                   intro hn
                   have h2 := lookup_isSome_iff.mpr hmem
                   rw [hn] at h2
                   cases h2)]
  show setCat (ensureContexts cs) "contexts" _ = cs
  rw [hens]
  have hadd : addedEntries fs (getCat cs "contexts") = [] := by
    unfold addedEntries
    apply List.filter_eq_nil_iff.mpr
    intro e he
    have he' := List.mem_filter.mp he
    have hid := h e he'.1 he'.2
    simp only [Bool.not_eq_true', Bool.not_eq_false]
    exact List.elem_eq_true_of_mem hid
  rw [hadd, List.append_nil, setCat_getCat_self _ hnodup]

theorem update_eq_self_of {cs : Components} (hnodup : (cs.map Prod.fst).Nodup)
    (hag : ∀ a ∈ getCat cs "agents", updateAgent a = some a)
    (hctx : ∀ e ∈ getCat cs "contexts", ctxUpdate e = e) :
    update_dependencies cs = some cs := by
  unfold update_dependencies
  rw [updateAgentsList_of_forall_self hag]
  show some (setCat (setCat cs "agents" (getCat cs "agents")) "contexts"
    ((getCat (setCat cs "agents" (getCat cs "agents")) "contexts").map ctxUpdate)) = some cs
  rw [setCat_getCat_self _ hnodup]
  have hmap : (getCat cs "contexts").map ctxUpdate = getCat cs "contexts" := by
    calc (getCat cs "contexts").map ctxUpdate = (getCat cs "contexts").map id :=
          List.map_congr_left hctx
      _ = getCat cs "contexts" := List.map_id _
  rw [hmap, setCat_getCat_self _ hnodup]

theorem noOldPatterns_spec {cs : Components} (h : noOldPatterns cs = true) :
    (∀ a ∈ getCat cs "agents", a.id = "opencoder" →
      ∃ ds, a.dependencies = some ds ∧
        ∀ d ∈ ds, hasSub d "context:workflows-delegation" = false) ∧
    (∀ e ∈ getCat cs "contexts", ∀ ds, e.dependencies = some ds → ∀ d ∈ ds,
      hasSub d "context:external-libraries" = false ∧
      hasSub d "context:adding-agent" = false ∧
      hasSub d "context:adding-skill" = false) := by
  unfold noOldPatterns at h
  rw [Bool.and_eq_true] at h
  obtain ⟨h1, h2⟩ := h
  rw [List.all_eq_true] at h1 h2
  constructor
  · intro a ha hid
    have ht := h1 a ha
    rw [if_pos (beq_iff_eq.mpr hid)] at ht
    cases hd : a.dependencies with
    | none => rw [hd] at ht; cases ht
    | some ds =>
      rw [hd] at ht
      rw [List.all_eq_true] at ht
      refine ⟨ds, rfl, fun d hdm => ?_⟩
      have := ht d hdm
      rwa [Bool.not_eq_eq_eq_not, Bool.not_true] at this
  · intro e he ds hd d hdm
    have ht := h2 e he
    rw [hd] at ht
    rw [List.all_eq_true] at ht
    have := ht d hdm
    rw [Bool.and_eq_true, Bool.and_eq_true] at this
    refine ⟨?_, ?_, ?_⟩
    · rw [← Bool.not_true, ← Bool.not_eq_eq_eq_not]
      exact this.1.1
    · rw [← Bool.not_true, ← Bool.not_eq_eq_eq_not]
      exact this.1.2
    · rw [← Bool.not_true, ← Bool.not_eq_eq_eq_not]
      exact this.2

theorem new_entries_not_dead :
    ∀ e ∈ new_entries, dead_entries.contains e.id = false := by decide

/-- A successful run whose output no longer contains any old rewrite
substring is a fixed point of the whole fix. -/
theorem fixRun_fixpoint {fs : List String} {cs cs₁ : Components}
    (hnd : keysNodup cs = true)
    (h : fixRun fs cs = some cs₁)
    (hclean : noOldPatterns cs₁ = true) :
    fixRun fs cs₁ = some cs₁ := by
  obtain ⟨hag, hctx, hframe, hmemctx, hndpres⟩ := fixRun_spec h
  have hnd₁ : (cs₁.map Prod.fst).Nodup := keysNodup_iff.mp (hndpres hnd)
  obtain ⟨hcleanAg, hcleanCtx⟩ := noOldPatterns_spec hclean
  have hids : ∀ e ∈ getCat cs₁ "contexts", dead_entries.contains e.id = false := by
    intro e he
    rw [hctx] at he
    obtain ⟨x, hx, rfl⟩ := List.mem_map.mp he
    rw [ctxUpdate_id]
    rcases List.mem_append.mp hx with hx | hx
    · have hpf := (List.mem_filter.mp hx).2
      rwa [Bool.not_eq_eq_eq_not, Bool.not_true] at hpf
    · have hxn : x ∈ new_entries := (List.mem_filter.mp (List.mem_filter.mp hx).1).1
      exact new_entries_not_dead x hxn
  have hrem : remove_dead_references cs₁ = cs₁ := remove_eq_self_of hnd₁ hids
  have hverified : ∀ e ∈ new_entries, fs.contains e.path = true →
      e.id ∈ (getCat cs₁ "contexts").map (fun c => c.id) := by
    intro e he hp
    rw [hctx]
    have hidseq : (((keptContexts cs ++ addedEntries fs (keptContexts cs)).map
          ctxUpdate).map (fun c => c.id)) =
        (keptContexts cs ++ addedEntries fs (keptContexts cs)).map (fun c => c.id) := by
      rw [List.map_map]
      exact List.map_congr_left (fun x _ => by simp [Function.comp, ctxUpdate_id])
    rw [hidseq, List.map_append]
    by_cases hin : e.id ∈ (keptContexts cs).map (fun c => c.id)
    · exact List.mem_append.mpr (Or.inl hin)
    · have he1 : e ∈ new_entries.filter (fun x => fs.contains x.path) :=
        List.mem_filter.mpr ⟨he, hp⟩
      have hcon : ((keptContexts cs).map (fun c => c.id)).contains e.id = false := by
        cases hc : ((keptContexts cs).map (fun c => c.id)).contains e.id
        · rfl
        · exact absurd (List.elem_iff.mp hc) hin
      have he2 : e ∈ addedEntries fs (keptContexts cs) := by
        apply List.mem_filter.mpr
        refine ⟨he1, ?_⟩
        rw [hcon]
        rfl
      exact List.mem_append.mpr (Or.inr (List.mem_map.mpr ⟨e, he2, rfl⟩))
  have hadd : (add_split_file_entries fs cs₁).fst = cs₁ :=
    addSplit_eq_self_of hnd₁ hmemctx hverified
  have hagSelf : ∀ a ∈ getCat cs₁ "agents", updateAgent a = some a := by
    intro a ha
    exact updateAgent_eq_self (fun hid => hcleanAg a ha hid)
  have hctxSelf : ∀ e ∈ getCat cs₁ "contexts", ctxUpdate e = e := by
    intro e he
    exact ctxUpdate_eq_self (fun ds hds d hd => hcleanCtx e he ds hds d hd)
  have hupd : update_dependencies cs₁ = some cs₁ :=
    update_eq_self_of hnd₁ hagSelf hctxSelf
  unfold fixRun
  rw [hrem, hadd, hupd]

theorem new_entries_ids_nodup : (new_entries.map (fun e => e.id)).Nodup := by decide

/-! ## Claims -/

/-- C1 (counterexample): the whole fix is not idempotent.  On a registry with
one contexts entry depending on `context:external-libraries`, the first run
rewrites the dependency to `context:external-libraries-workflow`; a second run
finds the old substring as a prefix inside the rewritten string and produces
`context:external-libraries-workflow-workflow`, so the second-run output
differs from the first-run output. -/
theorem c1_fix_not_idempotent :
    fixRun [] csLib = some csLib1 ∧ fixRun [] csLib1 = some csLib2 ∧
    csLib2 ≠ csLib1 := by
  refine ⟨by decide, by decide, by decide⟩

/-- C1 (amended): the fix is idempotent on every input whose first-run output
no longer contains an old rewrite substring in any rewritable dependency
(`noOldPatterns`); without that proviso a second run changes dependency
strings, as the counterexample shows.  The removal and append steps add no
duplicates and remove nothing on the second run; the requirement
`keysNodup` reflects that a JSON object has unique keys. -/
theorem c1_fix_idempotent_amended :
    ∀ (fs : List String) (cs cs₁ : Components),
      keysNodup cs = true → fixRun fs cs = some cs₁ →
      noOldPatterns cs₁ = true → fixRun fs cs₁ = some cs₁ :=
  fun _ _ _ hnd h hclean => fixRun_fixpoint hnd h hclean

theorem c1_fix_idempotent_amended_witness :
    keysNodup csW = true ∧ fixRun [] csW = some csW1 ∧
    noOldPatterns csW1 = true ∧ fixRun [] csW1 = some csW1 :=
  ⟨by decide, by decide, by decide,
    c1_fix_idempotent_amended [] csW csW1 (by decide) (by decide) (by decide)⟩

/-- C2: after `remove_dead_references`, no entry whose id is in the denylist
is in the `contexts` category, and every category other than `contexts`
is untouched. -/
theorem c2_denylist_removal (cs : Components) (e : Entry)
    (h : e.id ∈ dead_entries) :
    ¬ e ∈ getCat (remove_dead_references cs) "contexts" ∧
    ∀ k, k ≠ "contexts" → getCat (remove_dead_references cs) k = getCat cs k := by
  constructor
  · intro hmem
    rw [remove_contexts] at hmem
    have hf := (List.mem_filter.mp hmem).2
    rw [Bool.not_eq_eq_eq_not, Bool.not_true] at hf
    have ht : dead_entries.contains e.id = true := List.elem_eq_true_of_mem h
    rw [hf] at ht
    cases ht
  · intro k hk
    exact remove_frame cs hk

theorem c2_denylist_removal_witness :
    ¬ eNav ∈ getCat (remove_dead_references csNav) "contexts" ∧
    getCat (remove_dead_references csNav) "agents" = getCat csNav "agents" :=
  ⟨(c2_denylist_removal csNav eNav (by decide)).1,
   (c2_denylist_removal csNav eNav (by decide)).2 "agents" (by decide)⟩

/-- C3: a candidate whose path does not exist on disk is never added — any
entry in the resulting `contexts` bearing that candidate's id was already
present before — and the candidate's path is reported as a warning. -/
theorem c3_existence_gate (fs : List String) (cs : Components) (cand : Entry)
    (hc : cand ∈ new_entries) (hp : fs.contains cand.path = false) :
    (∀ e, e ∈ getCat (add_split_file_entries fs cs).fst "contexts" →
      e.id = cand.id → e ∈ getCat cs "contexts") ∧
    cand.path ∈ (add_split_file_entries fs cs).snd := by
  constructor
  · intro e he hid
    rw [addSplit_contexts] at he
    rcases List.mem_append.mp he with he | he
    · exact he
    · exfalso
      have he1 := List.mem_filter.mp he
      have he2 := List.mem_filter.mp he1.1
      have heq : e = cand :=
        List.inj_on_of_nodup_map new_entries_ids_nodup he2.1 hc hid
      rw [heq, hp] at he2
      cases he2.2
  · rw [addSplit_warnings]
    refine List.mem_map.mpr ⟨cand, ?_, rfl⟩
    refine List.mem_filter.mpr ⟨hc, ?_⟩
    rw [hp]
    rfl

theorem c3_existence_gate_witness :
    ((new_entries.get ⟨0, by decide⟩) ∈ new_entries ∧
      ([] : List String).contains (new_entries.get ⟨0, by decide⟩).path = false) ∧
    (new_entries.get ⟨0, by decide⟩).path ∈ (add_split_file_entries [] csNav).snd :=
  ⟨⟨by decide, by decide⟩,
   (c3_existence_gate [] csNav _ (by decide) (by decide)).2⟩

/-- C4: the contexts dependency rewrite is substring-based, not exact-match:
the contexts pass maps every dependency list through the three rules;
a string that merely extends `context:adding-agent` as a prefix is still
rewritten, both for the bare rule (`ctxRule2`) and through the whole
contexts pass, and the prefix-rewrite law holds for every suffix `t`. -/
theorem c4_substring_rewrite :
    (∀ cs cs', update_dependencies cs = some cs' →
      getCat cs' "contexts" = (getCat cs "contexts").map ctxUpdate) ∧
    (∀ t : String,
      pyReplace ("context:adding-agent" ++ t) "context:adding-agent"
          "context:adding-agent-basics" =
        "context:adding-agent-basics" ++
          pyReplace t "context:adding-agent" "context:adding-agent-basics") ∧
    ctxRule2 "context:adding-agent-extra" = "context:adding-agent-basics-extra" ∧
    ctxUpdate eExtra = eExtra' := by
  refine ⟨?_, ?_, ?_, ?_⟩
  · intro cs cs' h
    exact (update_dep_spec h).2.1
  · intro t
    exact pyReplace_replaces_prefix _ _ t (by decide)
  · decide
  · decide

theorem c4_substring_rewrite_witness :
    update_dependencies csU = some csU' ∧
    getCat csU' "contexts" = (getCat csU "contexts").map ctxUpdate :=
  ⟨by decide, c4_substring_rewrite.1 csU csU' (by decide)⟩

/-- C5 (counterexample): the claim fails for agents other than `opencoder`.
A registry whose only agent has id `helper-agent` and
`dependencies = [context:workflows-delegation]` comes out of the whole fix
with that list unchanged, not rewritten to `[context:task-delegation-basics]`. -/
theorem c5_nonopencoder_not_rewritten :
    fixRun [] csAg = some csAg' ∧
    agHelper ∈ getCat csAg "agents" ∧
    agHelper.dependencies = some ["context:workflows-delegation"] ∧
    getCat csAg' "agents" = [agHelper] ∧
    agHelper.dependencies ≠ some ["context:task-delegation-basics"] := by
  refine ⟨by decide, by decide, by decide, by decide, by decide⟩

/-- C5 (amended): for the agent the script targets — the one with id
`opencoder` — the rewrite holds: whenever the whole fix succeeds, an
`opencoder` agent with `dependencies = [context:workflows-delegation]`
appears in the output with `dependencies = [context:task-delegation-basics]`. -/
theorem c5_opencoder_rewrite_amended (fs : List String) (cs cs' : Components)
    (a : Entry) (h : fixRun fs cs = some cs')
    (ha : a ∈ getCat cs "agents") (hid : a.id = "opencoder")
    (hd : a.dependencies = some ["context:workflows-delegation"]) :
    { a with dependencies := some ["context:task-delegation-basics"] } ∈
      getCat cs' "agents" := by
  obtain ⟨hag, _, _, _, _⟩ := fixRun_spec h
  obtain ⟨b, hb1, hb2⟩ := updateAgentsList_mem hag ha
  unfold updateAgent at hb1
  rw [if_pos (beq_iff_eq.mpr hid), hd] at hb1
  have hb := Option.some.inj hb1
  rw [← hb] at hb2
  have hrw : ["context:workflows-delegation"].map agentRewrite =
      ["context:task-delegation-basics"] := by decide
  rw [hrw] at hb2
  exact hb2

theorem c5_opencoder_rewrite_amended_witness :
    fixRun [] csOC = some csOC' ∧
    { agOC with dependencies := some ["context:task-delegation-basics"] } ∈
      getCat csOC' "agents" :=
  ⟨by decide,
   c5_opencoder_rewrite_amended [] csOC csOC' agOC (by decide) (by decide)
     (by decide) (by decide)⟩

/-- C6: if loading fails or any fix step raises, the run reports failure and
the on-disk registry file is exactly the one it started with —
`save_registry` runs only after every earlier step succeeded. -/
theorem c6_no_partial_save (fs : List String) (w : World)
    (h : (mainRun fs w).snd = false) : (mainRun fs w).fst = w := by
  have mainRun_none : w.file = none → mainRun fs w = (w, false) := by
    intro hf
    unfold mainRun
    rw [hf]
  have mainRun_some : ∀ r, w.file = some r →
      mainRun fs w = (match fixRun fs r with
        | none => (w, false)
        | some r' => (save_registry r' w, true)) := by
    intro r hf
    unfold mainRun
    rw [hf]
  cases hf : w.file with
  | none => rw [mainRun_none hf]
  | some r =>
    rw [mainRun_some r hf] at h ⊢
    cases hfix : fixRun fs r with
    | none => rfl
    | some r' =>
      rw [hfix] at h
      exact Bool.noConfusion h

theorem c6_no_partial_save_witness :
    ((mainRun [] wNone).snd = false ∧ (mainRun [] wNone).fst = wNone) ∧
    ((mainRun [] wBadAgent).snd = false ∧ (mainRun [] wBadAgent).fst = wBadAgent) :=
  ⟨⟨by decide, c6_no_partial_save [] wNone (by decide)⟩,
   ⟨by decide, c6_no_partial_save [] wBadAgent (by decide)⟩⟩

/-- C7: `add_split_file_entries` leaves every category other than `contexts`
unchanged, and its whole effect on `contexts` is appending — in declared
candidate order — the candidates whose file exists and whose id is new;
the pre-existing prefix is untouched. -/
theorem c7_addsplit_frame_append (fs : List String) (cs : Components) :
    (∀ k, k ≠ "contexts" →
      getCat (add_split_file_entries fs cs).fst k = getCat cs k) ∧
    getCat (add_split_file_entries fs cs).fst "contexts" =
      getCat cs "contexts" ++
        (new_entries.filter (fun e => fs.contains e.path)).filter
          (fun e => !(((getCat cs "contexts").map (fun c => c.id)).contains e.id)) :=
  ⟨fun _ hk => addSplit_frame fs cs hk, addSplit_contexts fs cs⟩

theorem c7_addsplit_frame_append_witness :
    getCat (add_split_file_entries [] csNav).fst "agents" = getCat csNav "agents" ∧
    getCat (add_split_file_entries [] csNav).fst "contexts" =
      getCat csNav "contexts" ++
        (new_entries.filter (fun e => ([] : List String).contains e.path)).filter
          (fun e => !(((getCat csNav "contexts").map (fun c => c.id)).contains e.id)) :=
  ⟨(c7_addsplit_frame_append [] csNav).1 "agents" (by decide),
   (c7_addsplit_frame_append [] csNav).2⟩

/-- C8 (counterexample): the claim fails as a statement about entry values:
a contexts entry not in the denylist whose dependency list mentions
`context:external-libraries` is rewritten in place by the dependency pass,
so the original entry value is no longer present anywhere in the output
(the only category is `contexts`). -/
theorem c8_entry_value_changed :
    fixRun [] csLib = some csLib1 ∧
    dead_entries.contains eLibUser.id = false ∧
    eLibUser ∈ getCat csLib "contexts" ∧
    csLib1.map Prod.fst = ["contexts"] ∧
    ¬ eLibUser ∈ getCat csLib1 "contexts" := by
  refine ⟨by decide, by decide, by decide, by decide, by decide⟩

/-- C8 (amended): every entry present before the run — except contexts
entries whose id is denylisted — is still present after a successful run,
identical in every field except possibly `dependencies`, which the rewrite
pass may have changed. -/
theorem c8_entries_preserved_amended (fs : List String) (cs cs' : Components)
    (k : String) (e : Entry) (h : fixRun fs cs = some cs')
    (he : e ∈ getCat cs k) (hdead : k = "contexts" → ¬ e.id ∈ dead_entries) :
    ∃ ds, { e with dependencies := ds } ∈ getCat cs' k := by
  obtain ⟨hag, hctx, hframe, _, _⟩ := fixRun_spec h
  by_cases hk : k = "contexts"
  · subst hk
    have hkept : e ∈ keptContexts cs := by
      refine List.mem_filter.mpr ⟨he, ?_⟩
      have hc : dead_entries.contains e.id = false := by
        cases hc : dead_entries.contains e.id
        · rfl
        · exact absurd (List.elem_iff.mp hc) (hdead rfl)
      rw [hc]
      rfl
    refine ⟨(ctxUpdate e).dependencies, ?_⟩
    rw [hctx, ← ctxUpdate_shape]
    exact List.mem_map.mpr ⟨e, List.mem_append.mpr (Or.inl hkept), rfl⟩
  · by_cases hk2 : k = "agents"
    · subst hk2
      obtain ⟨b, hb1, hb2⟩ := updateAgentsList_mem hag he
      refine ⟨b.dependencies, ?_⟩
      rw [← updateAgent_shape hb1]
      exact hb2
    · refine ⟨e.dependencies, ?_⟩
      rw [entry_eta, hframe k hk hk2]
      exact he

theorem c8_entries_preserved_amended_witness :
    ∃ ds, { eLibUser with dependencies := ds } ∈ getCat csLib1 "contexts" :=
  c8_entries_preserved_amended [] csLib csLib1 "contexts" eLibUser
    (by decide) (by decide) (fun _ => by decide)

/-- C9: `add_split_file_entries` never fails on a registry without a
`contexts` key — it is total, creates the key before appending, and its
output always contains a `contexts` key. -/
theorem c9_contexts_key_created (fs : List String) (cs : Components) :
    ((add_split_file_entries fs cs).fst.lookup "contexts").isSome = true := by
  apply lookup_isSome_iff.mpr
  rw [addSplit_keys]
  exact mem_keys_ensure _

/-- C10: `remove_dead_references` keeps the surviving contexts entries in
their original relative order: the output is a sublist (order-preserving
selection) of the input, and every entry whose id is not denylisted
survives. -/
theorem c10_order_preserved (cs : Components) :
    List.Sublist (getCat (remove_dead_references cs) "contexts")
      (getCat cs "contexts") ∧
    ∀ e ∈ getCat cs "contexts", ¬ e.id ∈ dead_entries →
      e ∈ getCat (remove_dead_references cs) "contexts" := by
  constructor
  · rw [remove_contexts]
    exact List.filter_sublist _
  · intro e he hd
    rw [remove_contexts]
    refine List.mem_filter.mpr ⟨he, ?_⟩
    have hc : dead_entries.contains e.id = false := by
      cases hc : dead_entries.contains e.id
      · rfl
      · exact absurd (List.elem_iff.mp hc) hd
    rw [hc]
    rfl

theorem c10_order_preserved_witness :
    List.Sublist (getCat (remove_dead_references csNav) "contexts")
      (getCat csNav "contexts") ∧
    ePlain ∈ getCat (remove_dead_references csNav) "contexts" :=
  ⟨(c10_order_preserved csNav).1,
   (c10_order_preserved csNav).2 ePlain (by decide) (by decide)⟩
